import Mathlib

/-
Verification of the algo-trader adaptive rate-limiting layer and of the two
executable frontend functions (ApiService.request and Sparkline).

The rate-limiting subsystem is described in the repository only by its
documentation (docs on rate limiting, spec sections 3 to 7); no backend source
for it is present in the repository snapshot.  Every definition in the
RateLimiter namespace is therefore modelled from the spec, as flagged in its
doc comment.  Machine integers are modelled as Nat (timestamps are unix
seconds, counters are small); fallible operations return Option.
-/

namespace RateLimiter

/-- Modelled from the spec: adaptive-scorer standing per key
(good_standing, neutral, reduced); the backend source is missing. -/
inductive Standing
  | good
  | neutral
  | reduced
deriving DecidableEq

/-- Modelled from the spec: CounterRecord per (key, window) is
count plus window_start_timestamp; the backend source is missing. -/
structure CounterRecord where
  count : Nat
  window_start : Nat
deriving DecidableEq

/-- Modelled from the spec: ViolationHistory per key
(violation_count, last_violation_timestamp, standing), extended with the
clean-request streak the spec requires for reaching good standing;
the backend source is missing. -/
structure ViolationHistory where
  violation_count : Nat
  last_violation : Nat
  standing : Standing
  clean_streak : Nat
deriving DecidableEq

/-- Modelled from the spec: Verdict
allowed, limit, remaining, reset_at, retry_after; retry_after is 0 on an
allowed request, since the Retry-After header is present only when denied. -/
structure Verdict where
  allowed : Bool
  limit : Nat
  remaining : Nat
  reset_at : Nat
  retry_after : Nat
deriving DecidableEq

/-- Modelled from the spec: QuotaRule, an endpoint pattern plus an ordered
list of (max_requests, window_duration) pairs. -/
structure QuotaRule where
  endpoint_pattern : String
  window_limits : List (Nat × Nat)
deriving DecidableEq

/-- Modelled from the spec: AllowlistEntry, an IP address with an override
rule that replaces the matched QuotaRule. -/
structure AllowlistEntry where
  ip_address : String
  override_rule : QuotaRule
deriving DecidableEq

/-- Modelled from the spec: the immutable configuration snapshot - quota
rules, the global default rule, the allowlist table, and the two adaptive
constants the spec leaves as configuration (the violation decay window and
the clean-streak length needed for good standing). -/
structure Config where
  rules : List QuotaRule
  default_rule : QuotaRule
  allowlist : List AllowlistEntry
  decay_window : Nat
  clean_streak_len : Nat
deriving DecidableEq

/-- Association-list lookup, the map primitive of both counter stores. -/
def alookup {α β : Type} [DecidableEq α] : List (α × β) → α → Option β
  | [], _ => none
  | p :: t, k => if p.1 = k then some p.2 else alookup t k

/-- Association-list in-place update (append when the key is absent). -/
def aset {α β : Type} [DecidableEq α] : List (α × β) → α → β → List (α × β)
  | [], k, v => [(k, v)]
  | p :: t, k, v => if p.1 = k then (k, v) :: t else p :: aset t k v

/-- Result of one atomic increment-and-check on a raw counter map. -/
structure IncrResult where
  count : Nat
  allowed : Bool
  reset_at : Nat
  store : List ((String × Nat) × CounterRecord)
deriving DecidableEq

/-- Modelled from the spec: the single atomic Counter Store operation.
Look up or create the CounterRecord for (key, window_duration); if no record
exists or its window has elapsed (now - window_start >= window_duration),
start a fresh window with count 1 and allowed = true unless max_requests < 1;
otherwise increment and set allowed = (new_count <= max_requests).  The
increment happens even when the request is denied.  The backend source is
missing. -/
def incrementAndCheck (m : List ((String × Nat) × CounterRecord)) (key : String)
    (w maxr now : Nat) : IncrResult :=
  match alookup m (key, w) with
  | some r =>
    if w ≤ now - r.window_start then
      ⟨1, decide (1 ≤ maxr), now + w, aset m (key, w) ⟨1, now⟩⟩
    else
      ⟨r.count + 1, decide (r.count + 1 ≤ maxr), r.window_start + w,
       aset m (key, w) ⟨r.count + 1, r.window_start⟩⟩
  | none => ⟨1, decide (1 ≤ maxr), now + w, aset m (key, w) ⟨1, now⟩⟩

/-- Modelled from the spec: the dual-backend counter state - the health flag
of the distributed backend plus the two counter maps (distributed map and
in-process fallback map).  The backend source is missing. -/
structure CounterState where
  distributed_up : Bool
  dist : List ((String × Nat) × CounterRecord)
  fallback : List ((String × Nat) × CounterRecord)
deriving DecidableEq

/-- Result of one routed increment-and-check against the dual-backend store. -/
structure StoreResult where
  count : Nat
  allowed : Bool
  reset_at : Nat
  state : CounterState
deriving DecidableEq

/-- Modelled from the spec: the distributed backend client.  It returns none
exactly when the backend is unreachable (the health flag is down); the
network failure mode is collapsed into that flag.  The backend source is
missing. -/
def distIncrementAndCheck (s : CounterState) (key : String) (w maxr now : Nat) :
    Option StoreResult :=
  if s.distributed_up then
    let r := incrementAndCheck s.dist key w maxr now
    some ⟨r.count, r.allowed, r.reset_at, { s with dist := r.store }⟩
  else none

/-- Modelled from the spec: the routed Counter Store operation.  When the
distributed call fails the operation silently falls back to the in-process
map, so the caller always receives a result and never an error.  The backend
source is missing. -/
def storeIncrementAndCheck (s : CounterState) (key : String) (w maxr now : Nat) :
    StoreResult :=
  match distIncrementAndCheck s key w maxr now with
  | some r => r
  | none =>
    let r := incrementAndCheck s.fallback key w maxr now
    ⟨r.count, r.allowed, r.reset_at, { s with fallback := r.store }⟩

/-- Boolean test that the first list is an initial segment of the second. -/
def listPref {α : Type} [DecidableEq α] : List α → List α → Bool
  | [], _ => true
  | _ :: _, [] => false
  | a :: as, b :: bs => if a = b then listPref as bs else false

/-- Boolean test that the pattern string is an initial segment of the path. -/
def strPref (p s : String) : Bool := listPref p.toList s.toList

/-- One step of longest-match selection: a candidate rule replaces the
accumulator only when it matches and is strictly longer, so earlier rules win
ties. -/
def betterRule (ep : String) (acc : Option QuotaRule) (r : QuotaRule) :
    Option QuotaRule :=
  if strPref r.endpoint_pattern ep then
    match acc with
    | none => some r
    | some b =>
      if b.endpoint_pattern.length < r.endpoint_pattern.length then some r else some b
  else acc

/-- Modelled from the spec: Limit Registry matching - longest-pattern match
over the configured endpoint patterns, ties broken by declaration order,
falling back to the global default rule.  The backend source is missing. -/
def matchRule (cfg : Config) (ep : String) : QuotaRule :=
  (cfg.rules.foldl (betterRule ep) none).getD cfg.default_rule

/-- Modelled from the spec: allowlist matching - an entry matches when the
underlying client IP equals its address or the resolved key is the IP-derived
key of its address.  The backend source is missing. -/
def matchAllowlist (cfg : Config) (key ip : String) : Option AllowlistEntry :=
  cfg.allowlist.find?
    (fun e => decide (ip = e.ip_address) || decide (key = "ip:" ++ e.ip_address))

/-- The lazily created initial ViolationHistory of an unseen key. -/
def freshHistory : ViolationHistory := ⟨0, 0, Standing.neutral, 0⟩

/-- Modelled from the spec: decay by filtering at read time - violations
whose last_violation_timestamp is older than the decay window no longer count.
The backend source is missing. -/
def effectiveViolations (cfg : Config) (h : ViolationHistory) (now : Nat) : Nat :=
  if now - h.last_violation < cfg.decay_window then h.violation_count else 0

/-- Modelled from the spec: the adaptive adjustment of one window limit -
good standing doubles the base, neutral leaves it unchanged, reduced standing
yields max(10, base - 10 * undecayed violation count).  The backend source is
missing. -/
def adjustMax (cfg : Config) (h : ViolationHistory) (now base : Nat) : Nat :=
  match h.standing with
  | Standing.good => 2 * base
  | Standing.neutral => base
  | Standing.reduced => max 10 (base - 10 * effectiveViolations cfg h now)

/-- Modelled from the spec: Adaptive Scorer adjust - apply the per-window
adjustment to every window limit of the base rule.  The backend source is
missing. -/
def adjust (cfg : Config) (h : ViolationHistory) (now : Nat) (rule : QuotaRule) :
    QuotaRule :=
  { rule with window_limits :=
      rule.window_limits.map (fun p => (adjustMax cfg h now p.1, p.2)) }

/-- Modelled from the spec: Adaptive Scorer recordOutcome.  A denial bumps
violation_count, stamps last_violation, moves the key to reduced standing and
clears the clean streak; an allowed request extends the streak and promotes
the key to good standing once it has no undecayed violation and the streak
reaches the configured length.  The backend source is missing. -/
def recordOutcome (cfg : Config) (h : ViolationHistory) (allowed : Bool)
    (now : Nat) : ViolationHistory :=
  if allowed then
    let streak := h.clean_streak + 1
    let promote :=
      decide (effectiveViolations cfg h now = 0) &&
        decide (cfg.clean_streak_len ≤ streak)
    { h with clean_streak := streak,
             standing := if promote then Standing.good else h.standing }
  else
    ⟨h.violation_count + 1, now, Standing.reduced, 0⟩

/-- Outcome of one window of the effective rule inside the evaluator. -/
structure WinResult where
  maxr : Nat
  count : Nat
  allowed : Bool
  reset_at : Nat
deriving DecidableEq

/-- Remaining capacity a window result reports (clamped at zero, so a client
that keeps retrying keeps seeing zero rather than a renewed budget). -/
def remainingOf (r : WinResult) : Nat := r.maxr - r.count

/-- Modelled from the spec: call the routed Counter Store operation for every
window of the effective rule, threading the counter state through.  The
backend source is missing. -/
def runWindows (cs : CounterState) (key : String) (now : Nat) :
    List (Nat × Nat) → List WinResult × CounterState
  | [] => ([], cs)
  | p :: rest =>
    let r := storeIncrementAndCheck cs key p.2 p.1 now
    let q := runWindows r.state key now rest
    (⟨p.1, r.count, r.allowed, r.reset_at⟩ :: q.1, q.2)

/-- The governing window: the one with the smallest remaining capacity,
earlier windows winning ties. -/
def governing : WinResult → List WinResult → WinResult
  | best, [] => best
  | best, r :: rs => governing (if remainingOf r < remainingOf best then r else best) rs

/-- Modelled from the spec: assemble the Verdict - allowed only if all
windows allowed, remaining is the minimum across windows, reset_at and
retry_after come from the governing window, and retry_after is reported only
on a denial.  The backend source is missing. -/
def mkVerdict (results : List WinResult) (now : Nat) : Verdict :=
  match results with
  | [] => ⟨true, 0, 0, now, 0⟩
  | r :: rs =>
    let g := governing r rs
    let ok := (r :: rs).all (fun x => x.allowed)
    ⟨ok, g.maxr, remainingOf g, g.reset_at, if ok then 0 else g.reset_at - now⟩

/-- The full mutable state of the core: the dual counter store plus the
per-key violation histories. -/
structure SysState where
  counters : CounterState
  histories : List (String × ViolationHistory)
deriving DecidableEq

/-- The effective rule the evaluator uses on the non-allowlisted path: the
registry match adjusted by the Adaptive Scorer for the key. -/
def effRule (cfg : Config) (st : SysState) (key ep : String) (now : Nat) :
    QuotaRule :=
  adjust cfg ((alookup st.histories key).getD freshHistory) now (matchRule cfg ep)

/-- Window results produced for the effective rule from a given state. -/
def winResults (cfg : Config) (st : SysState) (key ep : String) (now : Nat) :
    List WinResult :=
  (runWindows st.counters key now (effRule cfg st key ep now).window_limits).1

/-- Counter state left behind after running every window of the effective
rule. -/
def winState (cfg : Config) (st : SysState) (key ep : String) (now : Nat) :
    CounterState :=
  (runWindows st.counters key now (effRule cfg st key ep now).window_limits).2

/-- Modelled from the spec: Quota Evaluator evaluate.  An allowlist match
substitutes the override window limits and bypasses the Adaptive Scorer
entirely (histories are neither read nor written); otherwise the matched rule
is adjusted by the scorer, every window is checked, and the outcome is
recorded whether allowed or denied.  The function is total: it always
returns a full Verdict and never an error.  The backend source is missing. -/
def evaluate (cfg : Config) (st : SysState) (key ip ep : String) (now : Nat) :
    Verdict × SysState :=
  match matchAllowlist cfg key ip with
  | some e =>
    let q := runWindows st.counters key now e.override_rule.window_limits
    (mkVerdict q.1 now, ⟨q.2, st.histories⟩)
  | none =>
    let h := (alookup st.histories key).getD freshHistory
    let q := runWindows st.counters key now (effRule cfg st key ep now).window_limits
    let v := mkVerdict q.1 now
    (v, ⟨q.2, aset st.histories key (recordOutcome cfg h v.allowed now)⟩)

/-- Whitespace predicate used by the trimming of API-key candidates. -/
def isSpace (c : Char) : Bool :=
  decide (c = ' ') || decide (c = '\t') || decide (c = '\n') || decide (c = '\r')

/-- Strip leading and trailing whitespace from a string. -/
def trimStr (s : String) : String :=
  String.mk (((s.toList.dropWhile isSpace).reverse.dropWhile isSpace).reverse)

/-- Modelled from the spec: the API-key candidate - the recognized header
name first, the recognized query parameter only when the header is absent.
The backend source is missing. -/
def apiKeyCandidate (headers query : List (String × String)) : Option String :=
  match alookup headers "X-API-Key" with
  | some v => some v
  | none => alookup query "api_key"

/-- Modelled from the spec: Identity Resolver resolve.  A non-blank API-key
candidate yields "apikey:" plus the value; otherwise the key is "ip:" plus
the client IP, an unresolvable IP degrading to the sentinel "ip:unknown".
The backend source is missing. -/
def resolve (headers query : List (String × String)) (client_ip : Option String) :
    String :=
  match apiKeyCandidate headers query with
  | some v =>
    if trimStr v = "" then "ip:" ++ client_ip.getD "unknown" else "apikey:" ++ v
  | none => "ip:" ++ client_ip.getD "unknown"

/-- Empty system state; the flag selects whether the distributed backend is
healthy. -/
def initState (b : Bool) : SysState := ⟨⟨b, [], []⟩, []⟩

/-- State after n requests for one key and endpoint, all at time now,
starting from the empty state. -/
def iterEval (cfg : Config) (b : Bool) (key ip ep : String) (now : Nat) :
    Nat → SysState
  | 0 => initState b
  | n + 1 => (evaluate cfg (iterEval cfg b key ip ep now n) key ip ep now).2

/-- Verdict of request n+1 (0-indexed n) in the iterated scenario. -/
def nthVerdict (cfg : Config) (b : Bool) (key ip ep : String) (now n : Nat) :
    Verdict :=
  (evaluate cfg (iterEval cfg b key ip ep now n) key ip ep now).1

/-- Counter map predicted after n same-window requests for one key. -/
def ctrMapAt (key : String) (w t n : Nat) :
    List ((String × Nat) × CounterRecord) :=
  if n = 0 then [] else [((key, w), ⟨n, t⟩)]

/-- Violation history predicted after n requests against a single window of
limit m: clean and neutral while n <= m, reduced with n - m violations
afterwards. -/
def histAt (m t n : Nat) : ViolationHistory :=
  if n ≤ m then ⟨0, 0, Standing.neutral, n⟩ else ⟨n - m, t, Standing.reduced, 0⟩

/-- History map predicted after n requests for one key. -/
def histMapAt (key : String) (m t n : Nat) : List (String × ViolationHistory) :=
  if n = 0 then [] else [(key, histAt m t n)]

/-- Full predicted state after n same-window requests for one key against a
single window of limit m, with the counter map living on whichever backend
the health flag selects. -/
def stateAt (b : Bool) (key : String) (w m t n : Nat) : SysState :=
  ⟨⟨b, if b then ctrMapAt key w t n else [], if b then [] else ctrMapAt key w t n⟩,
   histMapAt key m t n⟩

/-- Effective limit the scorer grants to request n+1 of the scenario. -/
def effLimitAt (m n : Nat) : Nat :=
  if n ≤ m then m else max 10 (m - 10 * (n - m))

/-- Predicted verdict of request n+1 of the single-window scenario. -/
def verdictAt (m w t n : Nat) : Verdict :=
  if n < m then ⟨true, m, m - (n + 1), t + w, 0⟩
  else ⟨false, effLimitAt m n, 0, t + w, w⟩

/-- Concrete configuration with the base rule of 10 requests per minute used
by the documented scenario. -/
def cfgBase : Config := ⟨[], ⟨"/", [(10, 60)]⟩, [], 3600, 100⟩

/-- Concrete configuration with a tiny single-window limit of 1 per minute. -/
def cfgOne : Config := ⟨[], ⟨"/", [(1, 60)]⟩, [], 3600, 100⟩

/-- Concrete configuration carrying one allowlist entry with generous
override limits, mirroring the documented TradingView webhook allowlist. -/
def cfgAllow : Config :=
  ⟨[], ⟨"/", [(10, 60)]⟩, [⟨"52.89.214.238", ⟨"", [(100, 60)]⟩⟩], 3600, 100⟩

/-- Concrete configuration whose default rule has two simultaneous windows
(per minute and per hour), as the documented webhook limits do. -/
def cfgMulti : Config := ⟨[], ⟨"/", [(10, 60), (100, 3600)]⟩, [], 3600, 200⟩

end RateLimiter

namespace Frontend

/-- The parsed JSON body of an HTTP response as ApiService.request consumes
it: only the detail field matters; none models a body without (or with a
null) detail field. -/
structure JsonBody where
  detail : Option String
deriving DecidableEq

/-- ApiResponse of frontend/src/services/api.ts: optional data, optional
error message, numeric status. -/
structure ApiResponse where
  data : Option JsonBody
  error : Option String
  status : Nat
deriving DecidableEq

/-- Joint outcome of the awaited fetch and response.json() calls inside the
try block of ApiService.request: an Error thrown (with its message), a
non-Error value thrown, or a parsed response with its ok flag, status and
body. -/
inductive FetchOutcome
  | throwErr (msg : String)
  | throwNonErr
  | response (ok : Bool) (status : Nat) (body : JsonBody)
deriving DecidableEq

/-- JavaScript data.detail || fallback: the fallback is used when detail is
absent, null, or the empty string (falsy). -/
def detailOr (d : Option String) : String :=
  match d with
  | some s => if s = "" then "An error occurred" else s
  | none => "An error occurred"

/-- Shallow embedding of ApiService.request from
frontend/src/services/api.ts: the try/catch catches every throw and maps it
to status 0, a non-ok response maps to its status with the detail-derived
error, and an ok response returns the body as data.  The function is total,
so the promise always resolves to an ApiResponse and never rejects. -/
def ApiService.request : FetchOutcome → ApiResponse
  | FetchOutcome.throwErr msg => ⟨none, some msg, 0⟩
  | FetchOutcome.throwNonErr => ⟨none, some "Network error", 0⟩
  | FetchOutcome.response ok status body =>
    if ok then ⟨some body, none, status⟩
    else ⟨none, some (detailOr body.detail), status⟩

/-- Math.max over the spread data array of Sparkline (rationals stand in for
JS numbers; empty input is irrelevant to the claims). -/
def sparkMax : List ℚ → ℚ
  | [] => 0
  | a :: t => t.foldl max a

/-- Math.min over the spread data array of Sparkline. -/
def sparkMin : List ℚ → ℚ
  | [] => 0
  | a :: t => t.foldl min a

/-- range = max - min computed by Sparkline in Dashboard.tsx. -/
def sparkRange (data : List ℚ) : ℚ := sparkMax data - sparkMin data

/-- The point list computed by Sparkline: for index i and value v,
x = (i / (data.length - 1)) * 60 and y = 20 - ((v - min) / range) * 20.
Division is total on ℚ (x / 0 = 0), so the divisor-nonzero claims carry the
actual safety content. -/
def sparkPoints (data : List ℚ) : List (ℚ × ℚ) :=
  data.mapIdx (fun i v =>
    (((i : ℚ) / ((data.length : ℚ) - 1)) * 60,
     20 - ((v - sparkMin data) / sparkRange data) * 20))

end Frontend

namespace RateLimiter

theorem alookup_aset_self {α β : Type} [DecidableEq α] :
    ∀ (l : List (α × β)) (k : α) (v : β), alookup (aset l k v) k = some v
  | [], k, v => by simp [aset, alookup]
  | p :: t, k, v => by
    by_cases h : p.1 = k
    · simp [aset, alookup, h]
    · simp [aset, alookup, h, alookup_aset_self t k v]

/-- C1: the Counter Store operation incrementAndCheck starts a fresh window
with count 1 (allowed unless max_requests < 1) when no record exists or the
window has elapsed, and otherwise increments the count and allows exactly
when the new count stays within max_requests, writing the incremented record
back even on a denial. -/
theorem c1_incrementAndCheck_contract (m : List ((String × Nat) × CounterRecord))
    (key : String) (w maxr now : Nat) :
    ((alookup m (key, w) = none ∨
        (∃ r, alookup m (key, w) = some r ∧ w ≤ now - r.window_start)) →
      (incrementAndCheck m key w maxr now).count = 1 ∧
      ((incrementAndCheck m key w maxr now).allowed = true ↔ 1 ≤ maxr) ∧
      (incrementAndCheck m key w maxr now).reset_at = now + w ∧
      alookup (incrementAndCheck m key w maxr now).store (key, w) =
        some ⟨1, now⟩) ∧
    (∀ r, alookup m (key, w) = some r → now - r.window_start < w →
      (incrementAndCheck m key w maxr now).count = r.count + 1 ∧
      ((incrementAndCheck m key w maxr now).allowed = true ↔
        r.count + 1 ≤ maxr) ∧
      (incrementAndCheck m key w maxr now).reset_at = r.window_start + w ∧
      alookup (incrementAndCheck m key w maxr now).store (key, w) =
        some ⟨r.count + 1, r.window_start⟩) := by
  constructor
  · rintro (h | ⟨r, hr, helapsed⟩)
    · simp [incrementAndCheck, h, alookup_aset_self]
    · simp [incrementAndCheck, hr, helapsed, alookup_aset_self]
  · intro r hr hlt
    have hne : ¬ (w ≤ now - r.window_start) := by omega
    simp [incrementAndCheck, hr, hne, alookup_aset_self]

theorem c1_incrementAndCheck_contract_witness :
    (incrementAndCheck [] "k" 60 5 0).count = 1 ∧
    (incrementAndCheck [] "k" 60 5 0).allowed = true ∧
    alookup (incrementAndCheck [(("k", 60), ⟨5, 0⟩)] "k" 60 5 10).store ("k", 60) =
      some ⟨6, 0⟩ := by
  have h1 := (c1_incrementAndCheck_contract [] "k" 60 5 0).1 (Or.inl rfl)
  have h2 := (c1_incrementAndCheck_contract [(("k", 60), ⟨5, 0⟩)] "k" 60 5 10).2
    ⟨5, 0⟩ (by decide) (by decide)
  exact ⟨h1.1, h1.2.1.mpr (by decide), h2.2.2.2⟩

/-- C3: with reduced standing and an undecayed violation count of N, the
Adaptive Scorer turns every base window limit into max(10, base - 10 * N),
and that effective limit never falls below the floor of 10, however large N
is. -/
theorem c3_adaptive_floor (cfg : Config) (h : ViolationHistory) (now : Nat)
    (rule : QuotaRule) (hstand : h.standing = Standing.reduced)
    (hdecay : now - h.last_violation < cfg.decay_window) :
    (adjust cfg h now rule).window_limits =
      rule.window_limits.map
        (fun p => (max 10 (p.1 - 10 * h.violation_count), p.2)) ∧
    ∀ q ∈ (adjust cfg h now rule).window_limits, 10 ≤ q.1 := by
  have hadj : ∀ base, adjustMax cfg h now base =
      max 10 (base - 10 * h.violation_count) := by
    intro base
    simp [adjustMax, hstand, effectiveViolations, hdecay]
  constructor
  · simp [adjust, hadj]
  · intro q hq
    simp only [adjust, List.mem_map] at hq
    obtain ⟨p, _, rfl⟩ := hq
    show 10 ≤ adjustMax cfg h now p.1
    rw [hadj]
    exact le_max_left _ _

theorem c3_adaptive_floor_witness :
    (adjust cfgBase ⟨100, 0, Standing.reduced, 0⟩ 0 ⟨"/w", [(50, 60)]⟩).window_limits =
      [(10, 60)] := by
  have h := c3_adaptive_floor cfgBase ⟨100, 0, Standing.reduced, 0⟩ 0
    ⟨"/w", [(50, 60)]⟩ rfl (by decide)
  rw [h.1]
  decide

/-- C7: on an allowlist match, evaluate substitutes the override window
limits for the matched rule, leaves every violation history untouched, and
its verdict does not depend on the histories at all - the Adaptive Scorer is
bypassed entirely. -/
theorem c7_allowlist_bypasses_scorer (cfg : Config) (st : SysState)
    (key ip ep : String) (now : Nat) (e : AllowlistEntry)
    (hA : matchAllowlist cfg key ip = some e) :
    (evaluate cfg st key ip ep now).1 =
      mkVerdict (runWindows st.counters key now e.override_rule.window_limits).1
        now ∧
    (evaluate cfg st key ip ep now).2.counters =
      (runWindows st.counters key now e.override_rule.window_limits).2 ∧
    (evaluate cfg st key ip ep now).2.histories = st.histories ∧
    ∀ H : List (String × ViolationHistory),
      (evaluate cfg ⟨st.counters, H⟩ key ip ep now).1 =
        (evaluate cfg st key ip ep now).1 := by
  refine ⟨?_, ?_, ?_, ?_⟩ <;> simp [evaluate, hA]

theorem c7_allowlist_bypasses_scorer_witness :
    (evaluate cfgAllow (initState true) "ip:52.89.214.238" "52.89.214.238" "/w"
      0).2.histories = [] ∧
    (evaluate cfgAllow (initState true) "ip:52.89.214.238" "52.89.214.238" "/w"
      0).1 =
      mkVerdict (runWindows (initState true).counters "ip:52.89.214.238" 0
        [(100, 60)]).1 0 := by
  have h := c7_allowlist_bypasses_scorer cfgAllow (initState true)
    "ip:52.89.214.238" "52.89.214.238" "/w" 0
    ⟨"52.89.214.238", ⟨"", [(100, 60)]⟩⟩ rfl
  exact ⟨h.2.2.1, h.1⟩

/-- C8: the Identity Resolver is total and deterministic - every input yields
exactly one key; a candidate API key that is non-blank after trimming yields
"apikey:" plus the value, otherwise the key is "ip:" plus the client IP, and
an unresolvable IP yields the sentinel "ip:unknown". -/
theorem c8_identity_resolver (headers query : List (String × String))
    (ip : Option String) :
    (∃! k, resolve headers query ip = k) ∧
    (∀ v, apiKeyCandidate headers query = some v → trimStr v ≠ "" →
      resolve headers query ip = "apikey:" ++ v) ∧
    (∀ v, apiKeyCandidate headers query = some v → trimStr v = "" →
      resolve headers query ip = "ip:" ++ ip.getD "unknown") ∧
    (apiKeyCandidate headers query = none →
      resolve headers query ip = "ip:" ++ ip.getD "unknown") ∧
    (ip = none → apiKeyCandidate headers query = none →
      resolve headers query ip = "ip:unknown") := by
  refine ⟨⟨resolve headers query ip, rfl, fun y hy => hy.symm⟩, ?_, ?_, ?_, ?_⟩
  · intro v hv hne
    simp [resolve, hv, hne]
  · intro v hv he
    simp [resolve, hv, he]
  · intro hn
    simp [resolve, hn]
  · intro hip hn
    subst hip
    simp [resolve, hn]

theorem c8_identity_resolver_witness :
    resolve [("X-API-Key", "abc")] [] (some "9.9.9.9") = "apikey:abc" ∧
    resolve [] [("api_key", "   ")] (some "9.9.9.9") = "ip:9.9.9.9" ∧
    resolve [] [] none = "ip:unknown" := by
  have h1 := c8_identity_resolver [("X-API-Key", "abc")] [] (some "9.9.9.9")
  have h2 := c8_identity_resolver [] [("api_key", "   ")] (some "9.9.9.9")
  have h3 := c8_identity_resolver [] [] none
  exact ⟨h1.2.1 "abc" rfl (by decide),
         h2.2.2.1 "   " rfl (by decide),
         h3.2.2.2.2 rfl rfl⟩

end RateLimiter

namespace Frontend

/-- C9 counterexample: a non-ok response whose body carries a present but
empty detail field yields the fallback message "An error occurred", not the
detail value itself, so the claim that the error equals the detail field
whenever it is present fails at this input. -/
theorem c9_counterexample :
    (⟨some ""⟩ : JsonBody).detail = some "" ∧
    (ApiService.request (FetchOutcome.response false 500 ⟨some ""⟩)).error =
      some "An error occurred" ∧
    some "An error occurred" ≠ (some "" : Option String) := by
  refine ⟨rfl, rfl, ?_⟩
  decide

/-- C9 amended: ApiService.request always resolves to an ApiResponse; a
thrown Error maps to status 0 with the Error message, a non-Error throw to
status 0 with "Network error", an ok response returns the body as data with
no error, and a non-ok response returns its status with the detail field as
error when that field is present and non-empty (JS-truthy), otherwise
"An error occurred", and no data. -/
theorem c9_request_behavior :
    (∀ msg, ApiService.request (FetchOutcome.throwErr msg) =
      ⟨none, some msg, 0⟩) ∧
    ApiService.request FetchOutcome.throwNonErr =
      ⟨none, some "Network error", 0⟩ ∧
    (∀ st b, ApiService.request (FetchOutcome.response true st b) =
      ⟨some b, none, st⟩) ∧
    (∀ st b v, b.detail = some v → v ≠ "" →
      ApiService.request (FetchOutcome.response false st b) =
        ⟨none, some v, st⟩) ∧
    (∀ st b, b.detail = none ∨ b.detail = some "" →
      ApiService.request (FetchOutcome.response false st b) =
        ⟨none, some "An error occurred", st⟩) := by
  refine ⟨fun msg => rfl, rfl, fun st b => rfl, ?_, ?_⟩
  · intro st b v hv hne
    simp [ApiService.request, detailOr, hv, hne]
  · rintro st b (h | h) <;> simp [ApiService.request, detailOr, h]

theorem c9_request_behavior_witness :
    ApiService.request (FetchOutcome.response false 404 ⟨some "Not found"⟩) =
      ⟨none, some "Not found", 404⟩ ∧
    ApiService.request (FetchOutcome.response false 500 ⟨none⟩) =
      ⟨none, some "An error occurred", 500⟩ :=
  ⟨c9_request_behavior.2.2.2.1 404 ⟨some "Not found"⟩ "Not found" rfl (by decide),
   c9_request_behavior.2.2.2.2 500 ⟨none⟩ (Or.inl rfl)⟩

theorem le_foldl_max : ∀ (t : List ℚ) (a x : ℚ), x = a ∨ x ∈ t →
    x ≤ t.foldl max a := by
  intro t
  induction t with
  | nil =>
    intro a x h
    rcases h with rfl | h
    · simp
    · cases h
  | cons b t2 ih =>
    intro a x h
    have step : List.foldl max a (b :: t2) = List.foldl max (max a b) t2 := rfl
    rw [step]
    rcases h with rfl | h
    · exact le_trans (le_max_left x b) (ih (max x b) (max x b) (Or.inl rfl))
    · rcases List.mem_cons.mp h with rfl | h2
      · exact le_trans (le_max_right a x) (ih (max a x) (max a x) (Or.inl rfl))
      · exact ih (max a b) x (Or.inr h2)

theorem foldl_min_le : ∀ (t : List ℚ) (a x : ℚ), x = a ∨ x ∈ t →
    t.foldl min a ≤ x := by
  intro t
  induction t with
  | nil =>
    intro a x h
    rcases h with rfl | h
    · simp
    · cases h
  | cons b t2 ih =>
    intro a x h
    have step : List.foldl min a (b :: t2) = List.foldl min (min a b) t2 := rfl
    rw [step]
    rcases h with rfl | h
    · exact le_trans (ih (min x b) (min x b) (Or.inl rfl)) (min_le_left x b)
    · rcases List.mem_cons.mp h with rfl | h2
      · exact le_trans (ih (min a x) (min a x) (Or.inl rfl)) (min_le_right a x)
      · exact ih (min a b) x (Or.inr h2)

/-- C10: for Sparkline data with at least two elements and two distinct
values, both divisors of the point computation are positive - the index
divisor data.length - 1 and the value divisor range = max - min - so each
computed coordinate is a well-defined (finite) number; and with the
distinct-values precondition dropped the range divisor can be exactly 0,
the division being unguarded in the code. -/
theorem c10_sparkline_divisors (data : List ℚ) (hlen : 2 ≤ data.length)
    (hdist : ∃ a ∈ data, ∃ b ∈ data, a ≠ b) :
    0 < (data.length : ℚ) - 1 ∧ 0 < sparkRange data ∧
    sparkRange [(3 : ℚ), 3] = 0 := by
  refine ⟨?_, ?_, by simp [sparkRange, sparkMax, sparkMin]⟩
  · have h2 : (2 : ℚ) ≤ (data.length : ℚ) := by exact_mod_cast hlen
    linarith
  · obtain ⟨a, ha, b, hb, hab⟩ := hdist
    cases data with
    | nil => simp at hlen
    | cons c t =>
      have hmaxa : a ≤ sparkMax (c :: t) :=
        le_foldl_max t c a (List.mem_cons.mp ha)
      have hmaxb : b ≤ sparkMax (c :: t) :=
        le_foldl_max t c b (List.mem_cons.mp hb)
      have hmina : sparkMin (c :: t) ≤ a :=
        foldl_min_le t c a (List.mem_cons.mp ha)
      have hminb : sparkMin (c :: t) ≤ b :=
        foldl_min_le t c b (List.mem_cons.mp hb)
      have : sparkMin (c :: t) < sparkMax (c :: t) := by
        rcases lt_or_le (sparkMin (c :: t)) (sparkMax (c :: t)) with h | h
        · exact h
        · exact absurd
            (le_antisymm (le_trans hmaxa (le_trans h hminb))
              (le_trans hmaxb (le_trans h hmina))) hab
      simp only [sparkRange]
      linarith

theorem c10_sparkline_divisors_witness :
    0 < ((([(1 : ℚ), 2]).length : ℚ)) - 1 ∧ 0 < sparkRange [(1 : ℚ), 2] ∧
    sparkRange [(3 : ℚ), 3] = 0 :=
  c10_sparkline_divisors [(1 : ℚ), 2] (by simp)
    ⟨1, by simp, 2, by simp, by norm_num⟩

end Frontend

namespace RateLimiter

theorem aset_histMapAt (key : String) (m t n : Nat) (h2 : ViolationHistory) :
    aset (histMapAt key m t n) key h2 = [(key, h2)] := by
  cases n with
  | zero => simp [histMapAt, aset]
  | succ k => simp [histMapAt, aset]

theorem hist_lookup (key : String) (m t n : Nat) :
    (alookup (histMapAt key m t n) key).getD freshHistory = histAt m t n := by
  cases n with
  | zero => simp [histMapAt, alookup, histAt, freshHistory]
  | succ k => simp [histMapAt, alookup]

theorem adjustMax_histAt (cfg : Config) (m t n : Nat) (hd : 0 < cfg.decay_window) :
    adjustMax cfg (histAt m t n) t m = effLimitAt m n := by
  by_cases h : n ≤ m
  · simp [histAt, h, adjustMax, effLimitAt]
  · have h0 : t - t = 0 := by omega
    simp [histAt, h, adjustMax, effLimitAt, effectiveViolations, h0, hd]

theorem incr_ctrMapAt (key : String) (w mx t n : Nat) (hw : 0 < w) :
    incrementAndCheck (ctrMapAt key w t n) key w mx t =
      ⟨n + 1, decide (n + 1 ≤ mx), t + w, ctrMapAt key w t (n + 1)⟩ := by
  cases n with
  | zero => simp [ctrMapAt, incrementAndCheck, alookup, aset]
  | succ k =>
    have h1 : t - t = 0 := by omega
    have h2 : ¬ (w ≤ 0) := by omega
    simp [ctrMapAt, incrementAndCheck, alookup, aset, h1, h2]

theorem eval_step_raw (cfg : Config) (b : Bool) (key ip ep : String)
    (t m w n : Nat)
    (hA : matchAllowlist cfg key ip = none)
    (hr : (matchRule cfg ep).window_limits = [(m, w)])
    (hw : 0 < w) (hd : 0 < cfg.decay_window) :
    evaluate cfg (stateAt b key w m t n) key ip ep t =
      (⟨decide (n + 1 ≤ effLimitAt m n), effLimitAt m n,
        effLimitAt m n - (n + 1), t + w,
        if decide (n + 1 ≤ effLimitAt m n) = true then 0 else w⟩,
       ⟨(stateAt b key w m t (n + 1)).counters,
        [(key, recordOutcome cfg (histAt m t n)
            (decide (n + 1 ≤ effLimitAt m n)) t)]⟩) := by
  have hhist : (alookup (stateAt b key w m t n).histories key).getD freshHistory
      = histAt m t n := hist_lookup key m t n
  have heff : (effRule cfg (stateAt b key w m t n) key ep t).window_limits
      = [(effLimitAt m n, w)] := by
    simp only [effRule]
    rw [hhist]
    simp [adjust, hr, adjustMax_histAt cfg m t n hd]
  have hrun : runWindows (stateAt b key w m t n).counters key t
      [(effLimitAt m n, w)] =
      ([⟨effLimitAt m n, n + 1, decide (n + 1 ≤ effLimitAt m n), t + w⟩],
       (stateAt b key w m t (n + 1)).counters) := by
    cases b <;>
      simp [stateAt, runWindows, storeIncrementAndCheck, distIncrementAndCheck,
        incr_ctrMapAt key w (effLimitAt m n) t n hw]
  simp only [evaluate, hA]
  rw [heff, hrun, hhist]
  simp [mkVerdict, governing, remainingOf, aset_histMapAt,
    Nat.add_sub_cancel_left]
  exact aset_histMapAt key m t n _

theorem eval_step (cfg : Config) (b : Bool) (key ip ep : String) (t m w n : Nat)
    (hA : matchAllowlist cfg key ip = none)
    (hr : (matchRule cfg ep).window_limits = [(m, w)])
    (hw : 0 < w) (hd : 0 < cfg.decay_window) (hs : m < cfg.clean_streak_len)
    (hn : 10 ≤ m ∨ n ≤ m) :
    evaluate cfg (stateAt b key w m t n) key ip ep t =
      (verdictAt m w t n, stateAt b key w m t (n + 1)) := by
  rw [eval_step_raw cfg b key ip ep t m w n hA hr hw hd]
  rcases Nat.lt_trichotomy n m with hlt | heq | hgt
  · have hE : effLimitAt m n = m := by simp [effLimitAt, Nat.le_of_lt hlt]
    have hdec : decide (n + 1 ≤ effLimitAt m n) = true := by
      rw [hE]
      exact decide_eq_true (by omega)
    have hnp : ¬ (cfg.clean_streak_len ≤ n + 1) := by omega
    have hv : verdictAt m w t n = ⟨true, m, m - (n + 1), t + w, 0⟩ := by
      simp [verdictAt, hlt]
    have hh1 : histAt m t n = ⟨0, 0, Standing.neutral, n⟩ := by
      simp [histAt, Nat.le_of_lt hlt]
    have hh2 : histAt m t (n + 1) = ⟨0, 0, Standing.neutral, n + 1⟩ := by
      simp [histAt, Nat.succ_le_of_lt hlt]
    rw [hdec, hE, hv, hh1]
    simp [recordOutcome, effectiveViolations, hnp, stateAt, histMapAt, hh2]
  · subst heq
    have hE : effLimitAt n n = n := by simp [effLimitAt]
    have hdec : decide (n + 1 ≤ effLimitAt n n) = false := by
      rw [hE]
      exact decide_eq_false (by omega)
    have h0 : n - (n + 1) = 0 := by omega
    have hv : verdictAt n w t n = ⟨false, n, 0, t + w, w⟩ := by
      simp [verdictAt, effLimitAt]
    have hh1 : histAt n t n = ⟨0, 0, Standing.neutral, n⟩ := by simp [histAt]
    have hh2 : histAt n t (n + 1) = ⟨1, t, Standing.reduced, 0⟩ := by
      have ha : ¬ (n + 1 ≤ n) := by omega
      have hb : n + 1 - n = 1 := by omega
      simp [histAt, ha, hb]
    rw [hdec, hE, hv, hh1, h0]
    simp [recordOutcome, stateAt, histMapAt, hh2]
  · have hm10 : 10 ≤ m := by
      rcases hn with h | h
      · exact h
      · omega
    have hnm : ¬ (n ≤ m) := by omega
    have hE : effLimitAt m n = max 10 (m - 10 * (n - m)) := by
      simp [effLimitAt, hnm]
    have hEle : effLimitAt m n ≤ m := by
      rw [hE]
      exact max_le hm10 (Nat.sub_le m _)
    have hdec : decide (n + 1 ≤ effLimitAt m n) = false :=
      decide_eq_false (by omega)
    have hrem : effLimitAt m n - (n + 1) = 0 := by omega
    have hv : verdictAt m w t n = ⟨false, effLimitAt m n, 0, t + w, w⟩ := by
      simp [verdictAt, show ¬ (n < m) from by omega]
    have hh1 : histAt m t n = ⟨n - m, t, Standing.reduced, 0⟩ := by
      simp [histAt, hnm]
    have hh2 : histAt m t (n + 1) = ⟨n + 1 - m, t, Standing.reduced, 0⟩ := by
      simp [histAt, show ¬ (n + 1 ≤ m) from by omega]
    rw [hdec, hv, hh1, hrem]
    simp [recordOutcome, stateAt, histMapAt, hh2,
      show n - m + 1 = n + 1 - m from by omega]

theorem iter_char (cfg : Config) (b : Bool) (key ip ep : String) (t m w : Nat)
    (hA : matchAllowlist cfg key ip = none)
    (hr : (matchRule cfg ep).window_limits = [(m, w)])
    (hw : 0 < w) (hd : 0 < cfg.decay_window) (hs : m < cfg.clean_streak_len) :
    ∀ n, (10 ≤ m ∨ n ≤ m + 1) →
      iterEval cfg b key ip ep t n = stateAt b key w m t n := by
  intro n
  induction n with
  | zero =>
    intro _
    simp [iterEval, initState, stateAt, ctrMapAt, histMapAt]
  | succ k ih =>
    intro hk
    have hk1 : 10 ≤ m ∨ k ≤ m + 1 := by
      rcases hk with h | h
      · exact Or.inl h
      · exact Or.inr (by omega)
    have hk2 : 10 ≤ m ∨ k ≤ m := by
      rcases hk with h | h
      · exact Or.inl h
      · exact Or.inr (by omega)
    simp only [iterEval]
    rw [ih hk1, eval_step cfg b key ip ep t m w k hA hr hw hd hs hk2]

theorem nth_char (cfg : Config) (b : Bool) (key ip ep : String) (t m w : Nat)
    (hA : matchAllowlist cfg key ip = none)
    (hr : (matchRule cfg ep).window_limits = [(m, w)])
    (hw : 0 < w) (hd : 0 < cfg.decay_window) (hs : m < cfg.clean_streak_len) :
    ∀ n, (10 ≤ m ∨ n ≤ m) →
      nthVerdict cfg b key ip ep t n = verdictAt m w t n := by
  intro n hn
  have h1 : 10 ≤ m ∨ n ≤ m + 1 := by
    rcases hn with h | h
    · exact Or.inl h
    · exact Or.inr (by omega)
  simp only [nthVerdict]
  rw [iter_char cfg b key ip ep t m w hA hr hw hd hs n h1,
    eval_step cfg b key ip ep t m w n hA hr hw hd hs hn]

/-- C2: for a key and endpoint governed by a single-window rule of limit
max_requests (with sane configuration: a positive window, a positive decay
window, and a clean-streak length above the limit so good standing cannot be
reached inside the window), the first max_requests calls to evaluate within
one window are allowed, the (max_requests + 1)-th is denied with a positive
Retry-After, and - for limits at or above the adaptive floor of 10, as in the
documented 10-per-minute scenario - every later call in the window stays
denied with a positive Retry-After. -/
theorem c2_single_window_scenario (cfg : Config) (b : Bool)
    (key ip ep : String) (t m w : Nat)
    (hA : matchAllowlist cfg key ip = none)
    (hr : (matchRule cfg ep).window_limits = [(m, w)])
    (hw : 0 < w) (hd : 0 < cfg.decay_window)
    (hs : m < cfg.clean_streak_len) :
    (∀ n, n < m → (nthVerdict cfg b key ip ep t n).allowed = true) ∧
    ((nthVerdict cfg b key ip ep t m).allowed = false ∧
      0 < (nthVerdict cfg b key ip ep t m).retry_after) ∧
    (10 ≤ m → ∀ n, m ≤ n →
      (nthVerdict cfg b key ip ep t n).allowed = false ∧
      0 < (nthVerdict cfg b key ip ep t n).retry_after) := by
  refine ⟨?_, ?_, ?_⟩
  · intro n hn
    rw [nth_char cfg b key ip ep t m w hA hr hw hd hs n (Or.inr (le_of_lt hn))]
    simp [verdictAt, hn]
  · rw [nth_char cfg b key ip ep t m w hA hr hw hd hs m (Or.inr le_rfl)]
    constructor <;> simp [verdictAt, hw]
  · intro h10 n hnm
    rw [nth_char cfg b key ip ep t m w hA hr hw hd hs n (Or.inl h10)]
    have hlt : ¬ (n < m) := by omega
    constructor <;> simp [verdictAt, hlt, hw]

theorem c2_single_window_scenario_witness :
    (nthVerdict cfgBase true "ip:1.2.3.4" "1.2.3.4" "/webhook" 0 9).allowed =
      true ∧
    (nthVerdict cfgBase true "ip:1.2.3.4" "1.2.3.4" "/webhook" 0 10).allowed =
      false ∧
    0 < (nthVerdict cfgBase true "ip:1.2.3.4" "1.2.3.4" "/webhook" 0
      10).retry_after ∧
    (nthVerdict cfgBase true "ip:1.2.3.4" "1.2.3.4" "/webhook" 0 11).allowed =
      false ∧
    0 < (nthVerdict cfgBase true "ip:1.2.3.4" "1.2.3.4" "/webhook" 0
      11).retry_after := by
  have h := c2_single_window_scenario cfgBase true "ip:1.2.3.4" "1.2.3.4"
    "/webhook" 0 10 60 rfl rfl (by decide) (by decide) (by decide)
  exact ⟨h.1 9 (by omega), h.2.1.1, h.2.1.2,
    (h.2.2 (by omega) 11 (by omega)).1, (h.2.2 (by omega) 11 (by omega)).2⟩

theorem storeIncr_down (s : CounterState) (key : String) (w mx t : Nat)
    (h : s.distributed_up = false) :
    (storeIncrementAndCheck s key w mx t).state.dist = s.dist ∧
    (storeIncrementAndCheck s key w mx t).state.distributed_up = false := by
  simp [storeIncrementAndCheck, distIncrementAndCheck, h]

theorem runWindows_down (key : String) (t : Nat) :
    ∀ (l : List (Nat × Nat)) (s : CounterState), s.distributed_up = false →
      (runWindows s key t l).2.dist = s.dist ∧
      (runWindows s key t l).2.distributed_up = false := by
  intro l
  induction l with
  | nil =>
    intro s h
    exact ⟨rfl, h⟩
  | cons p rest ih =>
    intro s h
    have h1 := storeIncr_down s key p.2 p.1 t h
    have h2 := ih (storeIncrementAndCheck s key p.2 p.1 t).state h1.2
    simp only [runWindows]
    exact ⟨h2.1.trans h1.1, h2.2⟩

/-- C4: when the distributed Counter Store backend is down, evaluate still
produces a full allow/deny Verdict from the in-process fallback - it is a
total function, it never touches the distributed map, the health flag stays
down - and limits keep being enforced per instance: with the backend down
for the whole single-window scenario, the first max_requests calls are
allowed and the (max_requests + 1)-th is denied, with no error surfaced. -/
theorem c4_fallback_no_error (cfg : Config) (key ip ep : String) (t m w : Nat)
    (hA : matchAllowlist cfg key ip = none)
    (hr : (matchRule cfg ep).window_limits = [(m, w)])
    (hw : 0 < w) (hd : 0 < cfg.decay_window)
    (hs : m < cfg.clean_streak_len) :
    (∀ (st : SysState), st.counters.distributed_up = false →
      (evaluate cfg st key ip ep t).2.counters.dist = st.counters.dist ∧
      (evaluate cfg st key ip ep t).2.counters.distributed_up = false) ∧
    (∀ n, n < m → (nthVerdict cfg false key ip ep t n).allowed = true) ∧
    ((nthVerdict cfg false key ip ep t m).allowed = false ∧
      0 < (nthVerdict cfg false key ip ep t m).retry_after) := by
  refine ⟨?_, ?_, ?_⟩
  · intro st hdown
    cases hAl : matchAllowlist cfg key ip with
    | some e =>
      simp only [evaluate, hAl]
      exact runWindows_down key t _ st.counters hdown
    | none =>
      simp only [evaluate, hAl]
      exact runWindows_down key t _ st.counters hdown
  · intro n hn
    rw [nth_char cfg false key ip ep t m w hA hr hw hd hs n
      (Or.inr (le_of_lt hn))]
    simp [verdictAt, hn]
  · rw [nth_char cfg false key ip ep t m w hA hr hw hd hs m (Or.inr le_rfl)]
    constructor <;> simp [verdictAt, hw]

theorem c4_fallback_no_error_witness :
    (evaluate cfgBase (initState false) "ip:1.2.3.4" "1.2.3.4" "/w"
      0).2.counters.dist = [] ∧
    (nthVerdict cfgBase false "ip:1.2.3.4" "1.2.3.4" "/w" 0 0).allowed = true ∧
    (nthVerdict cfgBase false "ip:1.2.3.4" "1.2.3.4" "/w" 0 10).allowed =
      false := by
  have h := c4_fallback_no_error cfgBase "ip:1.2.3.4" "1.2.3.4" "/w" 0 10 60
    rfl rfl (by decide) (by decide) (by decide)
  exact ⟨(h.1 (initState false) rfl).1, h.2.1 0 (by omega), h.2.2.1⟩

/-- C6 counterexample: with a 1-per-minute rule, the first request of the
window reports remaining = 0 and the second (denied) request in the same
window also reports remaining = 0, so the reported remaining does not
strictly decrease by exactly 1 on every request. -/
theorem c6_counterexample :
    (nthVerdict cfgOne true "ip:a" "a" "/e" 0 0).remaining = 0 ∧
    (nthVerdict cfgOne true "ip:a" "a" "/e" 0 1).remaining = 0 ∧
    ¬ ((nthVerdict cfgOne true "ip:a" "a" "/e" 0 0).remaining =
       (nthVerdict cfgOne true "ip:a" "a" "/e" 0 1).remaining + 1) := by
  refine ⟨?_, ?_, ?_⟩ <;> decide

/-- C6 amended: within one window the reported remaining decreases by
exactly 1 per request while requests stay within quota (request n+1 reports
max_requests - (n+1)), it stays at 0 for the denied requests of an exhausted
window (for limits at or above the adaptive floor of 10), and once
now >= reset_at the budget resets to max_requests, the first request of the
fresh window reporting max_requests - 1. -/
theorem c6_remaining_behavior (cfg : Config) (b : Bool) (key ip ep : String)
    (t m w : Nat)
    (hA : matchAllowlist cfg key ip = none)
    (hr : (matchRule cfg ep).window_limits = [(m, w)])
    (hw : 0 < w) (hd : 0 < cfg.decay_window)
    (hs : m < cfg.clean_streak_len) :
    (∀ n, n + 1 < m →
      (nthVerdict cfg b key ip ep t n).remaining =
        (nthVerdict cfg b key ip ep t (n + 1)).remaining + 1) ∧
    (∀ n, n < m → (nthVerdict cfg b key ip ep t n).remaining = m - (n + 1)) ∧
    (10 ≤ m → ∀ n, m ≤ n → (nthVerdict cfg b key ip ep t n).remaining = 0) ∧
    (∀ n t2, 0 < n → n ≤ m → t + w ≤ t2 →
      ((evaluate cfg (stateAt b key w m t n) key ip ep t2).1).remaining =
        m - 1) := by
  refine ⟨?_, ?_, ?_, ?_⟩
  · intro n hn
    rw [nth_char cfg b key ip ep t m w hA hr hw hd hs n (Or.inr (by omega)),
      nth_char cfg b key ip ep t m w hA hr hw hd hs (n + 1) (Or.inr (by omega))]
    have h1 : n < m := by omega
    simp [verdictAt, h1, hn]
    omega
  · intro n hn
    rw [nth_char cfg b key ip ep t m w hA hr hw hd hs n (Or.inr (by omega))]
    simp [verdictAt, hn]
  · intro h10 n hn
    rw [nth_char cfg b key ip ep t m w hA hr hw hd hs n (Or.inl h10)]
    simp [verdictAt, show ¬ (n < m) from by omega]
  · intro n t2 hn hnm ht2
    have hhist : (alookup (stateAt b key w m t n).histories key).getD
        freshHistory = histAt m t n := hist_lookup key m t n
    have hh1 : histAt m t n = ⟨0, 0, Standing.neutral, n⟩ := by
      simp [histAt, hnm]
    have heff : (effRule cfg (stateAt b key w m t n) key ep t2).window_limits
        = [(m, w)] := by
      simp only [effRule]
      rw [hhist, hh1]
      simp [adjust, hr, adjustMax]
    have hel : w ≤ t2 - t := by omega
    have hM : ctrMapAt key w t n = [((key, w), ⟨n, t⟩)] := by
      simp [ctrMapAt, show n ≠ 0 from by omega]
    have hincr : incrementAndCheck (ctrMapAt key w t n) key w m t2 =
        ⟨1, decide (1 ≤ m), t2 + w, aset (ctrMapAt key w t n) (key, w) ⟨1, t2⟩⟩ := by
      rw [hM]
      simp [incrementAndCheck, alookup, hel]
    have hrun2 : (runWindows (stateAt b key w m t n).counters key t2
        [(m, w)]).1 = [⟨m, 1, decide (1 ≤ m), t2 + w⟩] := by
      cases b <;>
        simp [stateAt, runWindows, storeIncrementAndCheck,
          distIncrementAndCheck, hincr]
    simp only [evaluate, hA]
    rw [heff, hrun2]
    simp [mkVerdict, governing, remainingOf]

theorem c6_remaining_behavior_witness :
    (nthVerdict cfgBase true "ip:c" "c" "/w" 0 0).remaining =
      (nthVerdict cfgBase true "ip:c" "c" "/w" 0 1).remaining + 1 ∧
    (nthVerdict cfgBase true "ip:c" "c" "/w" 0 10).remaining = 0 ∧
    (evaluate cfgBase (stateAt true "ip:c" 60 10 0 3) "ip:c" "c" "/w"
      100).1.remaining = 9 := by
  have h := c6_remaining_behavior cfgBase true "ip:c" "c" "/w" 0 10 60
    rfl rfl (by decide) (by decide) (by decide)
  exact ⟨h.1 0 (by omega), h.2.2.1 (by omega) 10 (by omega),
    h.2.2.2 3 100 (by omega) (by omega) (by omega)⟩

theorem governing_mem : ∀ (rs : List WinResult) (best : WinResult),
    governing best rs ∈ best :: rs := by
  intro rs
  induction rs with
  | nil =>
    intro best
    simp [governing]
  | cons r rs2 ih =>
    intro best
    have h := ih (if remainingOf r < remainingOf best then r else best)
    simp only [governing]
    rcases List.mem_cons.mp h with he | hm
    · rw [he]
      by_cases hc : remainingOf r < remainingOf best
      · rw [if_pos hc]
        exact List.mem_cons_of_mem _ (List.mem_cons_self r rs2)
      · rw [if_neg hc]
        exact List.mem_cons_self best _
    · exact List.mem_cons_of_mem _ (List.mem_cons_of_mem _ hm)

theorem governing_min : ∀ (rs : List WinResult) (best x : WinResult),
    x ∈ best :: rs → remainingOf (governing best rs) ≤ remainingOf x := by
  intro rs
  induction rs with
  | nil =>
    intro best x hx
    rcases List.mem_cons.mp hx with rfl | h
    · simp [governing]
    · cases h
  | cons r rs2 ih =>
    intro best x hx
    simp only [governing]
    set b2 := if remainingOf r < remainingOf best then r else best with hb
    have hb1 : remainingOf b2 ≤ remainingOf best := by
      rw [hb]
      split <;> omega
    have hb2 : remainingOf b2 ≤ remainingOf r := by
      rw [hb]
      split <;> omega
    have hself : remainingOf (governing b2 rs2) ≤ remainingOf b2 :=
      ih b2 b2 (List.mem_cons_self b2 rs2)
    rcases List.mem_cons.mp hx with rfl | hx2
    · exact le_trans hself hb1
    · rcases List.mem_cons.mp hx2 with rfl | hx3
      · exact le_trans hself hb2
      · exact ih b2 x (List.mem_cons_of_mem b2 hx3)

theorem runWindows_length (key : String) (t : Nat) :
    ∀ (l : List (Nat × Nat)) (cs : CounterState),
      (runWindows cs key t l).1.length = l.length := by
  intro l
  induction l with
  | nil =>
    intro cs
    rfl
  | cons p rest ih =>
    intro cs
    simp [runWindows, ih]

/-- C5: on the non-allowlisted path, evaluate runs incrementAndCheck for
every window of the effective rule (one result per window, threading the
counter state), is allowed exactly when all windows allow, reports as
remaining the minimum remaining across all windows, and takes reset_at,
limit and retry_after from a window attaining that minimum remaining
capacity, retry_after being reported only on a denial. -/
theorem c5_multi_window (cfg : Config) (st : SysState) (key ip ep : String)
    (now : Nat) (hA : matchAllowlist cfg key ip = none)
    (hnil : (effRule cfg st key ep now).window_limits ≠ []) :
    ((evaluate cfg st key ip ep now).1.allowed = true ↔
      ∀ r ∈ winResults cfg st key ep now, r.allowed = true) ∧
    (winResults cfg st key ep now).length =
      (effRule cfg st key ep now).window_limits.length ∧
    (∀ r ∈ winResults cfg st key ep now,
      (evaluate cfg st key ip ep now).1.remaining ≤ remainingOf r) ∧
    (∃ g ∈ winResults cfg st key ep now,
      remainingOf g = (evaluate cfg st key ip ep now).1.remaining ∧
      (evaluate cfg st key ip ep now).1.reset_at = g.reset_at ∧
      (evaluate cfg st key ip ep now).1.limit = g.maxr ∧
      (evaluate cfg st key ip ep now).1.retry_after =
        (if (evaluate cfg st key ip ep now).1.allowed = true then 0
         else g.reset_at - now)) ∧
    (evaluate cfg st key ip ep now).2.counters = winState cfg st key ep now := by
  have hv : (evaluate cfg st key ip ep now).1 =
      mkVerdict (winResults cfg st key ep now) now := by
    simp [evaluate, hA, winResults]
  have hc : (evaluate cfg st key ip ep now).2.counters =
      winState cfg st key ep now := by
    simp [evaluate, hA, winState]
  have hlen : (winResults cfg st key ep now).length =
      (effRule cfg st key ep now).window_limits.length :=
    runWindows_length key now _ st.counters
  obtain ⟨r, rs, hcons⟩ : ∃ r rs, winResults cfg st key ep now = r :: rs := by
    cases hq : winResults cfg st key ep now with
    | nil =>
      rw [hq] at hlen
      exact absurd (List.length_eq_zero.mp hlen.symm) hnil
    | cons a l => exact ⟨a, l, rfl⟩
  refine ⟨?_, hlen, ?_, ?_, hc⟩
  · rw [hv, hcons]
    simp [mkVerdict, List.all_eq_true]
  · intro x hx
    rw [hcons] at hx
    rw [hv, hcons]
    simp only [mkVerdict]
    exact governing_min rs r x hx
  · refine ⟨governing r rs, ?_, ?_, ?_, ?_, ?_⟩
    · rw [hcons]
      exact governing_mem rs r
    · rw [hv, hcons]
      simp [mkVerdict]
    · rw [hv, hcons]
      simp [mkVerdict]
    · rw [hv, hcons]
      simp [mkVerdict]
    · rw [hv, hcons]
      simp [mkVerdict]

theorem c5_multi_window_witness :
    (winResults cfgMulti (initState true) "ip:z" "/w" 0).length = 2 ∧
    (evaluate cfgMulti (initState true) "ip:z" "z" "/w" 0).2.counters =
      winState cfgMulti (initState true) "ip:z" "/w" 0 := by
  have h := c5_multi_window cfgMulti (initState true) "ip:z" "z" "/w" 0
    rfl (by decide)
  refine ⟨?_, h.2.2.2.2⟩
  rw [h.2.1]
  decide
